import Mathlib

/-!
Verification of the adaptive taxonomy mapper.

The Python sources are shallowly embedded: text is a list of characters,
floating point scores become exact rationals (every arithmetic operation the
code performs is sign- and value-preserved by this change at the scales
involved), Python dictionaries become association lists in insertion order,
and the one genuinely fallible effect (the network call to the completion
service) together with the regular-expression search primitive are passed in
as explicit oracles.
-/

namespace TaxMap

/-- Text is modelled as a list of characters. -/
abbrev Str := List Char

/-- ASCII word character (letter, digit or underscore): the regex class w
restricted to ASCII, as used by the substitution in preprocess. -/
def isWordChar (c : Char) : Bool :=
  (97 ≤ c.toNat && c.toNat ≤ 122) || (65 ≤ c.toNat && c.toNat ≤ 90) ||
    (48 ≤ c.toNat && c.toNat ≤ 57) || c == '_'

/-- Whitespace as recognised by the regex class s (ASCII part). -/
def isWs (c : Char) : Bool :=
  c == ' ' || c == '\t' || c == '\n' || c == '\r' || c == '\x0b' || c == '\x0c'

/-- Characters kept by the substitution step of preprocess: word characters,
whitespace, apostrophe and hyphen. -/
def keepChar (c : Char) : Bool :=
  isWordChar c || isWs c || c == '\'' || c == '-'

/-- str.lower applied characterwise. -/
def lowerStr (s : Str) : Str := s.map Char.toLower

/-- str.upper applied characterwise. -/
def upperStr (s : Str) : Str := s.map Char.toUpper

/-- The substitution step of preprocess: every character outside the class
of word characters, whitespace, apostrophe and hyphen becomes a space. -/
def punctClean (s : Str) : Str :=
  s.map (fun c => if keepChar c then c else ' ')

/-- The whitespace-collapsing step of preprocess: every maximal run of
whitespace characters becomes a single space. -/
def collapseWs : Str → Str
  | [] => []
  | [c] => if isWs c then [' '] else [c]
  | c :: d :: rest =>
    if isWs c then
      if isWs d then collapseWs (d :: rest)
      else ' ' :: collapseWs (d :: rest)
    else c :: collapseWs (d :: rest)

/-- str.strip for whitespace: drop whitespace from both ends. -/
def trimWs (s : Str) : Str :=
  ((s.dropWhile isWs).reverse.dropWhile isWs).reverse

/-- preprocess from text_analyzer.py: lowercase, replace every character
outside word characters, whitespace, apostrophe and hyphen by a space,
collapse whitespace runs to one space, and strip both ends. -/
def preprocess (s : Str) : Str :=
  trimWs (collapseWs (punctClean (lowerStr s)))

example : preprocess ("  Hello,  WORLD!  ".toList) = ("hello world".toList) := by decide

example : preprocess ("Don't-stop".toList) = ("don't-stop".toList) := by decide

/-! ### Facts about character-level lowering -/

theorem toNat_ofNat_small {n : Nat} (h : n < 55296) : (Char.ofNat n).toNat = n := by
  have hv : n.isValidChar := Or.inl h
  rw [Char.ofNat, dif_pos hv]
  rfl

theorem char_toNat_inj {c d : Char} (h : c.toNat = d.toNat) : c = d :=
  Char.ext (UInt32.ext h)

theorem toLower_eq (c : Char) :
    c.toLower = if c.toNat ≥ 65 ∧ c.toNat ≤ 90 then Char.ofNat (c.toNat + 32) else c := rfl

theorem toLower_toLower (c : Char) : c.toLower.toLower = c.toLower := by
  by_cases h : c.toNat ≥ 65 ∧ c.toNat ≤ 90
  · rw [toLower_eq c, if_pos h]
    have ht : (Char.ofNat (c.toNat + 32)).toNat = c.toNat + 32 :=
      toNat_ofNat_small (by omega)
    rw [toLower_eq, ht, if_neg (by omega)]
  · rw [toLower_eq c, if_neg h, toLower_eq c, if_neg h]

theorem isWs_iff_toNat (c : Char) :
    isWs c = true ↔
      c.toNat = 32 ∨ c.toNat = 9 ∨ c.toNat = 10 ∨ c.toNat = 13 ∨
        c.toNat = 11 ∨ c.toNat = 12 := by
  simp only [isWs, Bool.or_eq_true, beq_iff_eq]
  constructor
  · rintro (((((h | h) | h) | h) | h) | h) <;> subst h <;> decide
  · rintro (h | h | h | h | h | h) <;>
      first
        | exact Or.inl (Or.inl (Or.inl (Or.inl (Or.inl (char_toNat_inj h)))))
        | exact Or.inl (Or.inl (Or.inl (Or.inl (Or.inr (char_toNat_inj h)))))
        | exact Or.inl (Or.inl (Or.inl (Or.inr (char_toNat_inj h))))
        | exact Or.inl (Or.inl (Or.inr (char_toNat_inj h)))
        | exact Or.inl (Or.inr (char_toNat_inj h))
        | exact Or.inr (char_toNat_inj h)

theorem isWs_toLower (c : Char) : isWs c.toLower = isWs c := by
  by_cases h : c.toNat ≥ 65 ∧ c.toNat ≤ 90
  · rw [toLower_eq c, if_pos h]
    have ht : (Char.ofNat (c.toNat + 32)).toNat = c.toNat + 32 :=
      toNat_ofNat_small (by omega)
    have h1 : ¬ isWs (Char.ofNat (c.toNat + 32)) = true := by
      rw [isWs_iff_toNat, ht]; omega
    have h2 : ¬ isWs c = true := by
      rw [isWs_iff_toNat]; omega
    simp only [Bool.not_eq_true] at h1 h2
    rw [h1, h2]
  · rw [toLower_eq c, if_neg h]

/-! ### The normal form left by preprocess -/

/-- A character that can appear in the output of preprocess: a word
character, apostrophe, hyphen or plain space, fixed by lowering. -/
def goodChar (c : Char) : Bool :=
  (isWordChar c || c == '\'' || c == '-' || c == ' ') && (c.toLower == c)

/-- No two adjacent whitespace characters. -/
def wsChain (l : Str) : Prop :=
  List.Chain' (fun a b => isWs a = false ∨ isWs b = false) l

/-- The first character, when present, is not whitespace. -/
def frontOk (l : Str) : Prop := ∀ c, l.head? = some c → isWs c = false

/-- The shape of any preprocess output: good characters only, no two
adjacent whitespace characters, no whitespace at either end. -/
def normForm (l : Str) : Prop :=
  (∀ c ∈ l, goodChar c = true) ∧ wsChain l ∧ frontOk l ∧ frontOk l.reverse

theorem goodChar_space : goodChar ' ' = true := by decide

theorem ws_good_eq_space {c : Char} (hg : goodChar c = true) (hw : isWs c = true) :
    c = ' ' := by
  simp only [isWs, Bool.or_eq_true, beq_iff_eq] at hw
  rcases hw with ((((h | h) | h) | h) | h) | h <;> subst h <;> first
    | rfl
    | (exfalso; revert hg; decide)

theorem good_of_keep {c : Char} (hk : keepChar c = true) (hw : isWs c = false)
    (hf : c.toLower = c) : goodChar c = true := by
  simp only [keepChar, Bool.or_eq_true, beq_iff_eq] at hk
  simp only [goodChar, Bool.and_eq_true, Bool.or_eq_true, beq_iff_eq]
  refine ⟨?_, hf⟩
  rcases hk with ((h | h) | h) | h
  · exact Or.inl (Or.inl (Or.inl h))
  · rw [h] at hw; exact absurd hw (by simp)
  · exact Or.inl (Or.inl (Or.inr h))
  · exact Or.inl (Or.inr h)

/-! ### collapseWs: characters, adjacency, identity on normal forms -/

theorem collapseWs_single (c : Char) :
    collapseWs [c] = if isWs c then [' '] else [c] := rfl

theorem collapseWs_cons2 (c d : Char) (rest : Str) :
    collapseWs (c :: d :: rest) =
      if isWs c then
        if isWs d then collapseWs (d :: rest) else ' ' :: collapseWs (d :: rest)
      else c :: collapseWs (d :: rest) := rfl

theorem collapseWs_head {d : Char} (rest : Str) (hd : isWs d = false) :
    ∃ t, collapseWs (d :: rest) = d :: t := by
  cases rest with
  | nil => exact ⟨[], by rw [collapseWs_single, if_neg (by simp [hd])]⟩
  | cons e r =>
    exact ⟨_, by rw [collapseWs_cons2, if_neg (by simp [hd])]⟩

theorem mem_collapseWs {c : Char} :
    ∀ {l : Str}, c ∈ collapseWs l → c = ' ' ∨ (c ∈ l ∧ isWs c = false)
  | [], h => by simp [collapseWs] at h
  | [d], h => by
    by_cases hw : isWs d = true
    · rw [collapseWs_single, if_pos (by simp [hw])] at h
      simp at h; exact Or.inl h
    · simp only [Bool.not_eq_true] at hw
      rw [collapseWs_single, if_neg (by simp [hw])] at h
      simp at h
      subst h; exact Or.inr (by simp [hw])
  | d :: e :: rest, h => by
    by_cases hw : isWs d = true
    · by_cases hw2 : isWs e = true
      · rw [collapseWs_cons2, if_pos (by simp [hw]), if_pos (by simp [hw2])] at h
        rcases mem_collapseWs h with h1 | ⟨h1, h2⟩
        · exact Or.inl h1
        · exact Or.inr ⟨List.mem_cons_of_mem _ h1, h2⟩
      · simp only [Bool.not_eq_true] at hw2
        rw [collapseWs_cons2, if_pos (by simp [hw]), if_neg (by simp [hw2])] at h
        rcases List.mem_cons.mp h with h | h
        · exact Or.inl h
        · rcases mem_collapseWs h with h1 | ⟨h1, h2⟩
          · exact Or.inl h1
          · exact Or.inr ⟨List.mem_cons_of_mem _ h1, h2⟩
    · simp only [Bool.not_eq_true] at hw
      rw [collapseWs_cons2, if_neg (by simp [hw])] at h
      rcases List.mem_cons.mp h with h | h
      · subst h; exact Or.inr (by simp [hw])
      · rcases mem_collapseWs h with h1 | ⟨h1, h2⟩
        · exact Or.inl h1
        · exact Or.inr ⟨List.mem_cons_of_mem _ h1, h2⟩

theorem wsChain_collapseWs : ∀ l : Str, wsChain (collapseWs l)
  | [] => List.chain'_nil
  | [c] => by
    by_cases hw : isWs c = true
    · rw [collapseWs_single, if_pos (by simp [hw])]
      exact List.chain'_singleton _
    · simp only [Bool.not_eq_true] at hw
      rw [collapseWs_single, if_neg (by simp [hw])]
      exact List.chain'_singleton _
  | c :: d :: rest => by
    by_cases hw : isWs c = true
    · by_cases hw2 : isWs d = true
      · rw [collapseWs_cons2, if_pos (by simp [hw]), if_pos (by simp [hw2])]
        exact wsChain_collapseWs (d :: rest)
      · simp only [Bool.not_eq_true] at hw2
        rw [collapseWs_cons2, if_pos (by simp [hw]), if_neg (by simp [hw2])]
        obtain ⟨t, ht⟩ := collapseWs_head rest hw2
        rw [ht]
        have h3 := wsChain_collapseWs (d :: rest)
        rw [ht] at h3
        exact List.Chain'.cons (Or.inr hw2) h3
    · simp only [Bool.not_eq_true] at hw
      rw [collapseWs_cons2, if_neg (by simp [hw])]
      exact List.chain'_cons'.mpr ⟨fun b _ => Or.inl hw, wsChain_collapseWs (d :: rest)⟩

theorem collapseWs_id :
    ∀ l : Str, (∀ c ∈ l, goodChar c = true) → wsChain l → collapseWs l = l
  | [], _, _ => rfl
  | [c], hg, _ => by
    by_cases hw : isWs c = true
    · have := ws_good_eq_space (hg c (by simp)) hw
      subst this; rfl
    · simp only [Bool.not_eq_true] at hw
      rw [collapseWs_single, if_neg (by simp [hw])]
  | c :: d :: rest, hg, hch => by
    have hcd : isWs c = false ∨ isWs d = false := List.chain'_cons.mp hch |>.1
    have htail : wsChain (d :: rest) := List.chain'_cons.mp hch |>.2
    have hgtail : ∀ x ∈ d :: rest, goodChar x = true :=
      fun x hx => hg x (List.mem_cons_of_mem _ hx)
    by_cases hw : isWs c = true
    · have hd : isWs d = false := by
        rcases hcd with h | h
        · rw [hw] at h; exact absurd h (by simp)
        · exact h
      have hsp := ws_good_eq_space (hg c (by simp)) hw
      rw [collapseWs_cons2, if_pos (by simp [hw]), if_neg (by simp [hd]),
        collapseWs_id (d :: rest) hgtail htail, hsp]
    · simp only [Bool.not_eq_true] at hw
      rw [collapseWs_cons2, if_neg (by simp [hw]),
        collapseWs_id (d :: rest) hgtail htail]

/-! ### trimWs lemmas -/

theorem frontOk_dropWhile (l : Str) : frontOk (l.dropWhile isWs) := by
  induction l with
  | nil => intro c h; simp at h
  | cons a t ih =>
    intro c h
    by_cases ha : isWs a = true
    · rw [List.dropWhile_cons, if_pos ha] at h
      exact ih c h
    · simp only [Bool.not_eq_true] at ha
      rw [List.dropWhile_cons, if_neg (by simp [ha])] at h
      simp at h
      rw [← h]; exact ha

theorem dropWhile_eq_of_frontOk {l : Str} (h : frontOk l) :
    l.dropWhile isWs = l := by
  cases l with
  | nil => rfl
  | cons a t =>
    have := h a rfl
    rw [List.dropWhile_cons, if_neg (by simp [this])]

theorem trimWs_eq_of_frontOk {l : Str} (h1 : frontOk l) (h2 : frontOk l.reverse) :
    trimWs l = l := by
  unfold trimWs
  rw [dropWhile_eq_of_frontOk h1, dropWhile_eq_of_frontOk h2, List.reverse_reverse]

theorem mem_of_mem_dropWhile {c : Char} {p : Char → Bool} {l : Str}
    (h : c ∈ l.dropWhile p) : c ∈ l :=
  (List.dropWhile_sublist p (l := l)).mem h

theorem mem_of_mem_trimWs {c : Char} {l : Str} (h : c ∈ trimWs l) : c ∈ l := by
  unfold trimWs at h
  rw [List.mem_reverse] at h
  have := mem_of_mem_dropWhile h
  rw [List.mem_reverse] at this
  exact mem_of_mem_dropWhile this

theorem getLast?_suffix {l₁ l₂ : Str} (h : l₁ <:+ l₂) (hne : l₁ ≠ []) :
    l₁.getLast? = l₂.getLast? := by
  obtain ⟨pre, rfl⟩ := h
  rw [List.getLast?_append_of_ne_nil pre hne]

theorem wsChain_suffix {l₁ l₂ : Str} (h : l₁ <:+ l₂) (hc : wsChain l₂) :
    wsChain l₁ := by
  obtain ⟨pre, rfl⟩ := h
  exact (List.chain'_append.mp hc).2.1

theorem wsChain_reverse {l : Str} (hc : wsChain l) : wsChain l.reverse := by
  unfold wsChain at *
  rw [List.chain'_reverse]
  exact hc.imp (fun _ _ h => h.symm)

theorem wsChain_trimWs {l : Str} (hc : wsChain l) : wsChain (trimWs l) := by
  unfold trimWs
  apply wsChain_reverse
  exact wsChain_suffix (List.dropWhile_suffix isWs)
    (wsChain_reverse (wsChain_suffix (List.dropWhile_suffix isWs) hc))

theorem frontOk_trimWs_reverse (l : Str) : frontOk (trimWs l).reverse := by
  unfold trimWs
  rw [List.reverse_reverse]
  exact frontOk_dropWhile _

theorem frontOk_trimWs (l : Str) : frontOk (trimWs l) := by
  intro c h
  unfold trimWs at h
  rw [List.head?_reverse] at h
  have hwne : (l.dropWhile isWs).reverse.dropWhile isWs ≠ [] := by
    intro hnil; rw [hnil] at h; simp at h
  have hlast : ((l.dropWhile isWs).reverse.dropWhile isWs).getLast? =
      (l.dropWhile isWs).reverse.getLast? :=
    getLast?_suffix (List.dropWhile_suffix isWs) hwne
  rw [List.getLast?_reverse] at hlast
  exact frontOk_dropWhile l c (by rw [← hlast, h])

/-! ### The normal-form invariant and idempotence -/

theorem mem_punctClean_lowerStr {c : Char} {s : Str}
    (h : c ∈ punctClean (lowerStr s)) :
    c = ' ' ∨ (keepChar c = true ∧ c.toLower = c) := by
  simp only [punctClean, lowerStr, List.map_map, List.mem_map] at h
  obtain ⟨d, _, hd⟩ := h
  simp only [Function.comp] at hd
  by_cases hk : keepChar d.toLower = true
  · rw [if_pos hk] at hd
    subst hd
    exact Or.inr ⟨hk, toLower_toLower d⟩
  · rw [if_neg hk] at hd
    exact Or.inl hd.symm

theorem preprocess_normForm (s : Str) : normForm (preprocess s) := by
  refine ⟨?_, ?_, ?_, ?_⟩
  · intro c hc
    have hc1 := mem_of_mem_trimWs hc
    rcases mem_collapseWs hc1 with h | ⟨h1, h2⟩
    · subst h; exact goodChar_space
    · rcases mem_punctClean_lowerStr h1 with h | ⟨hk, hf⟩
      · subst h; exact goodChar_space
      · exact good_of_keep hk h2 hf
  · exact wsChain_trimWs (wsChain_collapseWs _)
  · exact frontOk_trimWs _
  · exact frontOk_trimWs_reverse _

theorem lowerStr_id {l : Str} (hg : ∀ c ∈ l, goodChar c = true) :
    lowerStr l = l := by
  unfold lowerStr
  have h1 : l.map Char.toLower = l.map id := by
    apply List.map_congr_left
    intro c hc
    have := hg c hc
    simp only [goodChar, Bool.and_eq_true, beq_iff_eq] at this
    exact this.2
  rw [h1, List.map_id]

theorem punctClean_id {l : Str} (hg : ∀ c ∈ l, goodChar c = true) :
    punctClean l = l := by
  unfold punctClean
  have h1 : l.map (fun c => if keepChar c then c else ' ') = l.map id := by
    apply List.map_congr_left
    intro c hc
    have := hg c hc
    simp only [goodChar, Bool.and_eq_true, Bool.or_eq_true, beq_iff_eq] at this
    have hk : keepChar c = true := by
      simp only [keepChar, Bool.or_eq_true, beq_iff_eq]
      rcases this.1 with ((h | h) | h) | h
      · exact Or.inl (Or.inl (Or.inl h))
      · exact Or.inl (Or.inr h)
      · exact Or.inr h
      · subst h; exact Or.inl (Or.inl (Or.inr (by decide)))
    simp [hk]
  rw [h1, List.map_id]

theorem preprocess_eq_of_normForm {l : Str} (h : normForm l) : preprocess l = l := by
  obtain ⟨hg, hch, hf, hfr⟩ := h
  unfold preprocess
  rw [lowerStr_id hg, punctClean_id hg, collapseWs_id l hg hch,
    trimWs_eq_of_frontOk hf hfr]

/-- C8: the text normalizer is total and idempotent.  preprocess is a total
Lean function (it never fails by construction), and applying it twice gives
the same result as applying it once. -/
theorem preprocess_idempotent (s : Str) :
    preprocess (preprocess s) = preprocess s :=
  preprocess_eq_of_normForm (preprocess_normForm s)

/-! ### Substring matching -/

/-- Python's substring containment: needle occurs contiguously in hay. -/
def containsSub (hay needle : Str) : Bool :=
  hay.tails.any (fun t => needle.isPrefixOf t)

example : containsSub ("hello world".toList) ("lo wo".toList) = true := by decide

example : containsSub ("hello".toList) ("world".toList) = false := by decide

/-! ### The pattern registry of text_analyzer.py -/

/-- One entry of category_patterns: keywords, phrase regex sources (matched
through an oracle standing for re.search), required context terms and the
weight multiplier.  Weights are exact rationals in place of floats. -/
structure CategoryPattern where
  name : Str
  keywords : List Str
  phrases : List Str
  context_requires : List Str
  weight : ℚ
  deriving DecidableEq

/-- Per-category score result: score plus matched keyword and phrase lists
in definition order. -/
structure ScoreInfo where
  score : ℚ
  matched_keywords : List Str
  matched_phrases : List Str
  deriving DecidableEq

/-- The enemies-to-lovers entry of the registry, named so concrete
instantiations can refer to it. -/
def enemiesPattern : CategoryPattern :=
  { name := "enemies-to-lovers".toList,
    keywords := ["hate", "hated", "enemy", "enemies", "rival", "rivalry",
      "despise", "loathe", "antagonist", "compete", "competition"].map String.toList,
    phrases := ["hated\\s+each\\s+other", "couldn\\'t\\s+stand", "worst\\s+enemy",
      "changed\\s+everything", "fell\\s+in\\s+love",
      "unexpected\\s+(love|feelings)"].map String.toList,
    context_requires := ["love", "romance", "relationship", "together",
      "feelings"].map String.toList,
    weight := 1 }

/-- The fixed registry from _build_pattern_rules, in dict insertion order. -/
def category_patterns : List CategoryPattern := [
  enemiesPattern,
  { name := "slow-burn".toList,
    keywords := ["years", "slowly", "gradual", "time", "patience", "waiting",
      "friendship", "friends", "eventually"].map String.toList,
    phrases := ["over\\s+the\\s+years", "slowly\\s+(fell|developed|grew)",
      "friends\\s+first", "took\\s+time"].map String.toList,
    context_requires := ["love", "romance", "feelings"].map String.toList,
    weight := 4/5 },
  { name := "second chance".toList,
    keywords := ["again", "reunion", "reunite", "return", "years", "past",
      "memory", "memories", "regret", "wonder", "gray-haired", "older"].map String.toList,
    phrases := ["met\\s+again", "years\\s+(later|after)", "what\\s+could\\s+have\\s+been",
      "second\\s+chance", "came\\s+back", "after\\s+the\\s+war"].map String.toList,
    context_requires := ["love", "romance", "relationship", "together"].map String.toList,
    weight := 1 },
  { name := "espionage".toList,
    keywords := ["spy", "spies", "agent", "mission", "secret", "covert",
      "intelligence", "cia", "mi6", "kremlin", "kgb", "undercover",
      "operative", "classified", "infiltrate"].map String.toList,
    phrases := ["secret\\s+mission", "without\\s+being\\s+detected",
      "stolen\\s+(drive|documents|files|intel)", "double\\s+agent",
      "enemy\\s+territory"].map String.toList,
    context_requires := [],
    weight := 1 },
  { name := "psychological".toList,
    keywords := ["mind", "mental", "paranoia", "paranoid", "obsession",
      "obsessed", "sanity", "insane", "delusion", "perception",
      "reality", "manipulation", "gaslight"].map String.toList,
    phrases := ["losing\\s+(his|her|their)\\s+mind", "can\\'t\\s+trust",
      "what\\s+is\\s+real", "playing\\s+mind\\s+games"].map String.toList,
    context_requires := [],
    weight := 9/10 },
  { name := "legal thriller".toList,
    keywords := ["lawyer", "attorney", "judge", "court", "trial", "verdict",
      "jury", "prosecution", "defense", "witness", "testimony",
      "cross-examination", "courtroom", "legal", "law"].map String.toList,
    phrases := ["before\\s+the\\s+judge", "cross[\\-\\s]examination",
      "opening\\s+statement", "the\\s+jury", "your\\s+honor",
      "fate\\s+of"].map String.toList,
    context_requires := [],
    weight := 6/5 },
  { name := "hard sci-fi".toList,
    keywords := ["physics", "science", "ftl", "light-speed", "quantum",
      "stasis", "cryogenic", "metabolic", "propulsion", "orbit",
      "trajectory", "radiation", "gravity", "engineering"].map String.toList,
    phrases := ["ftl\\s+travel", "faster\\s+than\\s+light", "deep\\s+dive\\s+into",
      "the\\s+physics\\s+of", "long[\\-\\s]term\\s+stasis",
      "scientific\\s+(accuracy|detail)"].map String.toList,
    context_requires := [],
    weight := 1 },
  { name := "space opera".toList,
    keywords := ["empire", "galactic", "fleet", "starship", "interstellar",
      "rebellion", "planets", "alien", "aliens", "federation",
      "captain", "crew", "space", "battle"].map String.toList,
    phrases := ["galactic\\s+(empire|war|federation)", "across\\s+the\\s+(galaxy|stars)",
      "space\\s+battle", "alien\\s+(race|species)"].map String.toList,
    context_requires := [],
    weight := 9/10 },
  { name := "cyberpunk".toList,
    keywords := ["neon", "cyber", "hack", "hacker", "corporate", "dystopia",
      "augment", "implant", "virtual", "ai", "android", "tokyo",
      "megacity", "tech", "futuristic", "digital"].map String.toList,
    phrases := ["neon[\\-\\s]drenched", "neon[\\-\\s]lit", "ai\\s+operating\\s+system",
      "virtual\\s+reality", "corporate\\s+(control|dystopia)",
      "high[\\-\\s]tech.*low[\\-\\s]life"].map String.toList,
    context_requires := [],
    weight := 1 },
  { name := "psychological horror".toList,
    keywords := ["dread", "terror", "fear", "paranoia", "nightmare",
      "hallucination", "disturbing", "unsettling", "creeping"].map String.toList,
    phrases := ["losing\\s+(his|her|their)\\s+grip", "can\\'t\\s+escape",
      "in\\s+(his|her|their)\\s+mind"].map String.toList,
    context_requires := ["horror", "scary", "fear", "terror"].map String.toList,
    weight := 9/10 },
  { name := "gothic".toList,
    keywords := ["mansion", "victorian", "old", "ancient", "estate", "manor",
      "corridors", "whisper", "whispers", "secrets", "dark", "past",
      "family", "curse", "haunted", "atmosphere", "brooding", "decay"].map String.toList,
    phrases := ["old\\s+(victorian|mansion|manor|estate)", "victorian\\s+mansion",
      "seemed\\s+to\\s+breathe", "dark\\s+past", "family\\'?s?\\s+(dark\\s+)?secret",
      "whispering\\s+secrets", "corridors\\s+whisper"].map String.toList,
    context_requires := [],
    weight := 1 },
  { name := "slasher".toList,
    keywords := ["killer", "murder", "stalk", "stalks", "masked", "mask",
      "victim", "victims", "teenagers", "teens", "camp", "cabin",
      "woods", "knife", "blood", "chase", "survive", "survival"].map String.toList,
    phrases := ["masked\\s+killer", "stalks\\s+(a\\s+group|the|them)",
      "group\\s+of\\s+teenagers", "summer\\s+camp", "one\\s+by\\s+one",
      "pick\\s+them\\s+off"].map String.toList,
    context_requires := [],
    weight := 1 }]

/-- Keywords of unmapped_indicators. -/
def unmapped_keywords : List Str :=
  ["recipe", "cook", "bake", "ingredient", "ingredients",
   "instructions", "how-to", "tutorial", "guide", "diy",
   "build", "construct", "steps", "degrees", "cups", "flour",
   "sugar", "mix", "stir", "household", "items", "backyard"].map String.toList

/-- Phrase regex sources of unmapped_indicators. -/
def unmapped_phrases : List Str :=
  ["how\\s+to\\s+(build|make|cook|bake)", "step[\\-\\s]by[\\-\\s]step",
   "cups?\\s+of\\s+\\w+", "bake\\s+at\\s+\\d+\\s+degrees",
   "mix\\s+(with|together)",
   "using\\s+(basic\\s+)?household\\s+items"].map String.toList

/-! ### calculate_category_scores -/

/-- Space-joined list of strings, as in str.join. -/
def joinSp (ls : List Str) : Str := List.intercalate ([' ']) ls

/-- The combined text used only for context gating: normalized snippet,
one space, then the lowercased tags joined by spaces. -/
def combinedText (text : Str) (tags : List Str) : Str :=
  preprocess text ++ [' '] ++ joinSp (tags.map lowerStr)

/-- The per-category body of calculate_category_scores: 1.0 per keyword
occurring in the normalized snippet, 2.0 per phrase the oracle matches
against the normalized snippet, times 0.3 when a non-empty
context_requires list has no term in the combined text, times the weight. -/
def scoreInfoFor (srch : Str → Str → Bool) (pat : CategoryPattern)
    (ptext combined : Str) : ScoreInfo :=
  let mk := pat.keywords.filter (fun k => containsSub ptext k)
  let mp := pat.phrases.filter (fun p => srch p ptext)
  let raw : ℚ := (mk.length : ℚ) * 1 + (mp.length : ℚ) * 2
  let gated : ℚ :=
    if pat.context_requires.isEmpty then raw
    else if pat.context_requires.any (fun t => containsSub combined t) then raw
    else raw * (3/10)
  { score := gated * pat.weight, matched_keywords := mk, matched_phrases := mp }

/-- calculate_category_scores over an explicit registry; the result is the
dict as an association list in registry order, holding exactly the
categories whose final score is positive. -/
def calcScores (srch : Str → Str → Bool) (registry : List CategoryPattern)
    (text : Str) (tags : List Str) : List (Str × ScoreInfo) :=
  registry.filterMap (fun pat =>
    let si := scoreInfoFor srch pat (preprocess text) (combinedText text tags)
    if 0 < si.score then some (pat.name, si) else none)

/-- calculate_category_scores from text_analyzer.py, over the fixed
registry. -/
def calculate_category_scores (srch : Str → Str → Bool) (text : Str)
    (tags : List Str) : List (Str × ScoreInfo) :=
  calcScores srch category_patterns text tags

theorem lookup_calcScores_of_not_mem {srch : Str → Str → Bool}
    {registry : List CategoryPattern} {text : Str} {tags : List Str} {n : Str}
    (h : n ∉ registry.map (fun pat => pat.name)) :
    List.lookup n (calcScores srch registry text tags) = none := by
  induction registry with
  | nil => rfl
  | cons pat rest ih =>
    simp only [List.map_cons, List.mem_cons, not_or] at h
    show List.lookup n (List.filterMap _ (pat :: rest)) = none
    rw [List.filterMap_cons]
    rcases hsc : (if 0 < (scoreInfoFor srch pat (preprocess text)
        (combinedText text tags)).score
      then some (pat.name, scoreInfoFor srch pat (preprocess text)
        (combinedText text tags)) else none) with _ | v
    · exact ih h.2
    · have hv : v.1 = pat.name := by
        by_cases hpos : 0 < (scoreInfoFor srch pat (preprocess text)
            (combinedText text tags)).score
        · rw [if_pos hpos] at hsc
          cases hsc; rfl
        · rw [if_neg hpos] at hsc; cases hsc
      rw [List.lookup_cons]
      have hne : (n == v.1) = false := by
        rw [hv]
        exact beq_false_of_ne h.1
      rw [hne]
      exact ih h.2

theorem lookup_calcScores_of_mem {srch : Str → Str → Bool}
    {registry : List CategoryPattern} {text : Str} {tags : List Str}
    {pat : CategoryPattern}
    (hnd : (registry.map (fun q => q.name)).Nodup) (hmem : pat ∈ registry) :
    List.lookup pat.name (calcScores srch registry text tags) =
      (if 0 < (scoreInfoFor srch pat (preprocess text) (combinedText text tags)).score
       then some (scoreInfoFor srch pat (preprocess text) (combinedText text tags))
       else none) := by
  induction registry with
  | nil => cases hmem
  | cons q rest ih =>
    rw [List.map_cons, List.nodup_cons] at hnd
    rcases List.mem_cons.mp hmem with rfl | htail
    · show List.lookup pat.name (List.filterMap _ (pat :: rest)) = _
      rw [List.filterMap_cons]
      by_cases hpos : 0 < (scoreInfoFor srch pat (preprocess text)
          (combinedText text tags)).score
      · rw [if_pos hpos, List.lookup_cons, beq_self_eq_true]
        simp only [hpos, if_pos]
      · rw [if_neg hpos]
        simp only [hpos, if_neg, if_false]
        exact lookup_calcScores_of_not_mem hnd.1
    · have hne : pat.name ≠ q.name := by
        intro he
        exact hnd.1 (he ▸ List.mem_map_of_mem (fun r => r.name) htail)
      show List.lookup pat.name (List.filterMap _ (q :: rest)) = _
      rw [List.filterMap_cons]
      by_cases hpos : 0 < (scoreInfoFor srch q (preprocess text)
          (combinedText text tags)).score
      · rw [if_pos hpos, List.lookup_cons, beq_false_of_ne hne]
        exact ih hnd.2 htail
      · rw [if_neg hpos]
        exact ih hnd.2 htail

theorem category_patterns_names_nodup :
    (category_patterns.map (fun q => q.name)).Nodup := by decide

/-- The scoring formula exactly as the specification words it: 1.0 times the
keyword hits plus 2.0 times the phrase hits, times 0.3 when the category has
a non-empty context_requires list none of whose terms occurs in the combined
text, times the weight.  Stated independently of scoreInfoFor so the two can
be compared. -/
def specCategoryScore (srch : Str → Str → Bool) (pat : CategoryPattern)
    (text : Str) (tags : List Str) : ℚ :=
  (((pat.keywords.filter (fun kw => containsSub (preprocess text) kw)).length : ℚ) * 1 +
    ((pat.phrases.filter (fun ph => srch ph (preprocess text))).length : ℚ) * 2) *
  (if pat.context_requires ≠ [] ∧
      (∀ t ∈ pat.context_requires, containsSub (combinedText text tags) t = false)
    then (3/10 : ℚ) else 1) *
  pat.weight

theorem scoreInfoFor_eq (srch : Str → Str → Bool) (pat : CategoryPattern)
    (text : Str) (tags : List Str) :
    scoreInfoFor srch pat (preprocess text) (combinedText text tags) =
      { score := specCategoryScore srch pat text tags,
        matched_keywords := pat.keywords.filter (fun kw => containsSub (preprocess text) kw),
        matched_phrases := pat.phrases.filter (fun ph => srch ph (preprocess text)) } := by
  unfold scoreInfoFor specCategoryScore
  by_cases he : pat.context_requires.isEmpty = true
  · have hctx : pat.context_requires = [] := List.isEmpty_iff.mp he
    have hcond : ¬ (pat.context_requires ≠ [] ∧
        ∀ t ∈ pat.context_requires,
          containsSub (combinedText text tags) t = false) := by
      simp [hctx]
    simp only [if_pos he, if_neg hcond, ScoreInfo.mk.injEq, and_true, true_and]
    ring
  · have hctx : pat.context_requires ≠ [] := by
      intro h; rw [h] at he; exact he rfl
    by_cases hany : pat.context_requires.any
        (fun t => containsSub (combinedText text tags) t) = true
    · have hcond : ¬ (pat.context_requires ≠ [] ∧
          ∀ t ∈ pat.context_requires,
            containsSub (combinedText text tags) t = false) := by
        rw [List.any_eq_true] at hany
        obtain ⟨t, ht, hc⟩ := hany
        rintro ⟨-, hall⟩
        rw [hall t ht] at hc
        cases hc
      simp only [if_neg he, if_pos hany, if_neg hcond, ScoreInfo.mk.injEq,
        and_true, true_and]
      ring
    · have hcond : pat.context_requires ≠ [] ∧
          ∀ t ∈ pat.context_requires,
            containsSub (combinedText text tags) t = false := by
        refine ⟨hctx, fun t ht => ?_⟩
        have hany2 := hany
        simp only [Bool.not_eq_true, List.any_eq_false] at hany2
        simpa using hany2 t ht
      simp only [if_neg he, if_neg hany, if_pos hcond, ScoreInfo.mk.injEq,
        and_true, true_and]

/-- C1: for every snippet, tag list and regex-search oracle, the mapping
returned by calculate_category_scores contains a registry category exactly
when its final score is strictly positive; for each included category the
score equals (1.0 times the keyword hits in the normalized snippet plus 2.0
times the phrase hits on the normalized snippet), times 0.3 when the
category has a non-empty context_requires list none of whose terms occurs
in the combined text, times the category weight; names outside the registry
never appear.  Keyword and phrase matching read only the normalized
snippet, so tags alone never trigger them. -/
theorem calculate_category_scores_spec (srch : Str → Str → Bool) (text : Str)
    (tags : List Str) :
    (∀ pat ∈ category_patterns,
      List.lookup pat.name (calculate_category_scores srch text tags) =
        (if 0 < specCategoryScore srch pat text tags then
          some { score := specCategoryScore srch pat text tags,
                 matched_keywords :=
                   pat.keywords.filter (fun kw => containsSub (preprocess text) kw),
                 matched_phrases :=
                   pat.phrases.filter (fun ph => srch ph (preprocess text)) }
         else none)) ∧
    (∀ n, n ∉ category_patterns.map (fun pat => pat.name) →
      List.lookup n (calculate_category_scores srch text tags) = none) := by
  constructor
  · intro pat hmem
    rw [calculate_category_scores,
      lookup_calcScores_of_mem category_patterns_names_nodup hmem,
      scoreInfoFor_eq]
  · intro n hn
    exact lookup_calcScores_of_not_mem hn

/-- Witness for C1: the theorem instantiated with the always-false search
oracle, snippet "hate", no tags, and the enemies-to-lovers registry
entry. -/
theorem calculate_category_scores_spec_witness :
    enemiesPattern ∈ category_patterns ∧
    List.lookup enemiesPattern.name
        (calculate_category_scores (fun _ _ => false) ("hate".toList) []) =
      (if 0 < specCategoryScore (fun _ _ => false) enemiesPattern ("hate".toList) [] then
        some { score := specCategoryScore (fun _ _ => false) enemiesPattern ("hate".toList) [],
               matched_keywords := enemiesPattern.keywords.filter
                 (fun kw => containsSub (preprocess ("hate".toList)) kw),
               matched_phrases := enemiesPattern.phrases.filter
                 (fun ph => (fun _ _ => false : Str → Str → Bool) ph (preprocess ("hate".toList))) }
       else none) :=
  ⟨List.mem_cons_self _ _,
   (calculate_category_scores_spec (fun _ _ => false) ("hate".toList) []).1
     enemiesPattern (List.mem_cons_self _ _)⟩

theorem category_patterns_weight_bounds :
    ∀ pat ∈ category_patterns, (4/5 : ℚ) ≤ pat.weight ∧ pat.weight ≤ 6/5 := by
  intro pat hmem
  unfold category_patterns enemiesPattern at hmem
  fin_cases hmem <;> norm_num

theorem specCategoryScore_pos_iff (srch : Str → Str → Bool) (text : Str)
    (tags : List Str) (pat : CategoryPattern) (hw : 0 < pat.weight) :
    0 < specCategoryScore srch pat text tags ↔
      (∃ kw ∈ pat.keywords, containsSub (preprocess text) kw = true) ∨
        (∃ ph ∈ pat.phrases, srch ph (preprocess text) = true) := by
  unfold specCategoryScore
  have hg : (0:ℚ) < (if pat.context_requires ≠ [] ∧
      (∀ t ∈ pat.context_requires, containsSub (combinedText text tags) t = false)
    then (3/10 : ℚ) else 1) := by
    split <;> norm_num
  set k := (pat.keywords.filter (fun kw => containsSub (preprocess text) kw)).length with hk
  set p := (pat.phrases.filter (fun ph => srch ph (preprocess text))).length with hp
  have key : 0 < ((k:ℚ) * 1 + (p:ℚ) * 2) *
      (if pat.context_requires ≠ [] ∧
          (∀ t ∈ pat.context_requires, containsSub (combinedText text tags) t = false)
        then (3/10 : ℚ) else 1) * pat.weight ↔
      0 < ((k:ℚ) * 1 + (p:ℚ) * 2) := by
    constructor
    · intro h
      rcases lt_or_eq_of_le (show (0:ℚ) ≤ (k:ℚ) * 1 + (p:ℚ) * 2 by positivity) with h1 | h1
      · exact h1
      · rw [← h1, zero_mul, zero_mul] at h
        exact absurd h (lt_irrefl 0)
    · intro h
      exact mul_pos (mul_pos h hg) hw
  rw [key]
  have hA : 0 < ((k:ℚ) * 1 + (p:ℚ) * 2) ↔ 0 < k ∨ 0 < p := by
    constructor
    · intro h
      by_contra hno
      push_neg at hno
      have hk0 : k = 0 := by omega
      have hp0 : p = 0 := by omega
      rw [hk0, hp0] at h
      norm_num at h
    · rintro (h | h)
      · have h1 : (1:ℚ) ≤ (k:ℚ) := by exact_mod_cast h
        have h2 : (0:ℚ) ≤ (p:ℚ) := by positivity
        nlinarith
      · have h1 : (1:ℚ) ≤ (p:ℚ) := by exact_mod_cast h
        have h2 : (0:ℚ) ≤ (k:ℚ) := by positivity
        nlinarith
  rw [hA]
  apply or_congr
  · rw [hk, List.length_pos_iff_exists_mem]
    constructor
    · rintro ⟨kw, hkw⟩
      rw [List.mem_filter] at hkw
      exact ⟨kw, hkw.1, hkw.2⟩
    · rintro ⟨kw, h1, h2⟩
      exact ⟨kw, List.mem_filter.mpr ⟨h1, h2⟩⟩
  · rw [hp, List.length_pos_iff_exists_mem]
    constructor
    · rintro ⟨ph, hph⟩
      rw [List.mem_filter] at hph
      exact ⟨ph, hph.1, hph.2⟩
    · rintro ⟨ph, h1, h2⟩
      exact ⟨ph, List.mem_filter.mpr ⟨h1, h2⟩⟩

/-- C9: context gating never eliminates a category.  For every snippet, tag
list and search oracle, a registry category appears in the scoring output
exactly when at least one of its keywords occurs in the normalized snippet
or at least one of its phrases matches it; and every registry weight lies
between 0.8 and 1.2, so (with the 0.3 context factor) a positive raw score
is damped but never reduced to zero. -/
theorem context_gating_never_eliminates (srch : Str → Str → Bool) (text : Str)
    (tags : List Str) :
    (∀ pat ∈ category_patterns,
      ((List.lookup pat.name (calculate_category_scores srch text tags)).isSome = true ↔
        (∃ kw ∈ pat.keywords, containsSub (preprocess text) kw = true) ∨
          (∃ ph ∈ pat.phrases, srch ph (preprocess text) = true))) ∧
    (∀ pat ∈ category_patterns, (4/5 : ℚ) ≤ pat.weight ∧ pat.weight ≤ 6/5) := by
  constructor
  · intro pat hmem
    have hw : 0 < pat.weight := by
      have := (category_patterns_weight_bounds pat hmem).1
      linarith
    rw [(calculate_category_scores_spec srch text tags).1 pat hmem]
    by_cases hpos : 0 < specCategoryScore srch pat text tags
    · rw [if_pos hpos]
      simp only [Option.isSome_some, true_iff]
      exact (specCategoryScore_pos_iff srch text tags pat hw).mp hpos
    · rw [if_neg hpos]
      simp only [Option.isSome_none, Bool.false_eq_true, false_iff]
      intro hr
      exact hpos ((specCategoryScore_pos_iff srch text tags pat hw).mpr hr)
  · exact category_patterns_weight_bounds

/-- Witness for C9: the theorem instantiated with the always-false oracle,
snippet "hate", no tags and the enemies-to-lovers entry; the category stays
present because the keyword "hate" occurs, even though its context gate
fires. -/
theorem context_gating_never_eliminates_witness :
    enemiesPattern ∈ category_patterns ∧
    ((List.lookup enemiesPattern.name
        (calculate_category_scores (fun _ _ => false) ("hate".toList) [])).isSome = true ↔
      (∃ kw ∈ enemiesPattern.keywords,
          containsSub (preprocess ("hate".toList)) kw = true) ∨
        (∃ ph ∈ enemiesPattern.phrases,
          (fun _ _ => false : Str → Str → Bool) ph (preprocess ("hate".toList)) = true)) :=
  ⟨List.mem_cons_self _ _,
   (context_gating_never_eliminates (fun _ _ => false) ("hate".toList) []).1
     enemiesPattern (List.mem_cons_self _ _)⟩

/-! ### check_unmapped -/

/-- The result record of check_unmapped. -/
structure UnmappedInfo where
  is_unmapped : Bool
  matched_keywords : List Str
  matched_phrases : List Str
  confidence : ℚ
  deriving DecidableEq

/-- check_unmapped from text_analyzer.py: an indicator keyword matches when
it occurs in the normalized snippet or equals one of the lowercased tags;
an indicator phrase matches when the oracle finds it in the normalized
snippet; the verdict needs three keywords, or a phrase plus a keyword. -/
def check_unmapped (srch : Str → Str → Bool) (text : Str) (tags : List Str) :
    UnmappedInfo :=
  let ptext := preprocess text
  let ptags := tags.map lowerStr
  let mk := unmapped_keywords.filter
    (fun k => containsSub ptext k || ptags.contains k)
  let mp := unmapped_phrases.filter (fun p => srch p ptext)
  { is_unmapped := decide (3 ≤ mk.length) ||
      (decide (1 ≤ mp.length) && decide (1 ≤ mk.length)),
    matched_keywords := mk,
    matched_phrases := mp,
    confidence := min (((mk.length : ℚ) + (mp.length : ℚ) * 2) / 5) 1 }

/-- The number of indicator keywords matched, as the claim counts them. -/
def unmappedKeywordCount (text : Str) (tags : List Str) : Nat :=
  (unmapped_keywords.filter
    (fun k => containsSub (preprocess text) k || (tags.map lowerStr).contains k)).length

/-- The number of indicator phrases matched. -/
def unmappedPhraseCount (srch : Str → Str → Bool) (text : Str) : Nat :=
  (unmapped_phrases.filter (fun p => srch p (preprocess text))).length

/-- C2: for every snippet, tag list and search oracle, check_unmapped
reports unmapped exactly when the matched-keyword count k is at least 3, or
at least one phrase matched and k is at least 1; the confidence is
min((k + 2p)/5, 1); and in particular k = 2 with p = 0 is not unmapped,
k at least 3 is, and k at least 1 with p at least 1 is. -/
theorem check_unmapped_spec (srch : Str → Str → Bool) (text : Str)
    (tags : List Str) :
    ((check_unmapped srch text tags).is_unmapped = true ↔
      (3 ≤ unmappedKeywordCount text tags ∨
        (1 ≤ unmappedPhraseCount srch text ∧ 1 ≤ unmappedKeywordCount text tags))) ∧
    (check_unmapped srch text tags).confidence =
      min (((unmappedKeywordCount text tags : ℚ) +
        2 * (unmappedPhraseCount srch text : ℚ)) / 5) 1 ∧
    (unmappedKeywordCount text tags = 2 ∧ unmappedPhraseCount srch text = 0 →
      (check_unmapped srch text tags).is_unmapped = false) ∧
    (3 ≤ unmappedKeywordCount text tags →
      (check_unmapped srch text tags).is_unmapped = true) ∧
    (1 ≤ unmappedKeywordCount text tags ∧ 1 ≤ unmappedPhraseCount srch text →
      (check_unmapped srch text tags).is_unmapped = true) := by
  have hiff : (check_unmapped srch text tags).is_unmapped = true ↔
      (3 ≤ unmappedKeywordCount text tags ∨
        (1 ≤ unmappedPhraseCount srch text ∧ 1 ≤ unmappedKeywordCount text tags)) := by
    unfold check_unmapped unmappedKeywordCount unmappedPhraseCount
    simp only [Bool.or_eq_true, Bool.and_eq_true, decide_eq_true_eq]
  refine ⟨hiff, ?_, ?_, ?_, ?_⟩
  · unfold check_unmapped unmappedKeywordCount unmappedPhraseCount
    ring_nf
  · intro ⟨hk, hp⟩
    rw [← Bool.not_eq_true, hiff, hk, hp]
    omega
  · intro hk
    rw [hiff]
    exact Or.inl hk
  · intro ⟨hk, hp⟩
    rw [hiff]
    exact Or.inr ⟨hp, hk⟩

/-- Witness for C2: the theorem instantiated with the always-false oracle,
the snippet "mix the flour and sugar with a recipe" and no tags; separate
decidable facts pin the concrete counts (4 keywords, 0 phrases). -/
theorem check_unmapped_spec_witness :
    unmappedKeywordCount ("mix the flour and sugar with a recipe".toList) [] = 4 ∧
    unmappedPhraseCount (fun _ _ => false)
      ("mix the flour and sugar with a recipe".toList) = 0 ∧
    (check_unmapped (fun _ _ => false)
      ("mix the flour and sugar with a recipe".toList) []).is_unmapped = true :=
  ⟨by decide, by decide,
   (check_unmapped_spec (fun _ _ => false)
       ("mix the flour and sugar with a recipe".toList) []).2.2.2.1 (by decide)⟩

/-! ### taxonomy_loader.py -/

/-- The value stored in subcategory_map: original casing kept. -/
structure HierarchyInfo where
  root : Str
  parent : Str
  subcategory : Str
  deriving DecidableEq

/-- The raw taxonomy JSON: root name to parent name to subcategory list,
in file order. -/
abbrev Taxonomy := List (Str × List (Str × List Str))

/-- All (lowercased subcategory, hierarchy info) pairs in insertion order,
as produced by the loops of _build_maps. -/
def buildEntries (t : Taxonomy) : List (Str × HierarchyInfo) :=
  t.flatMap (fun rc => rc.2.flatMap (fun pc => pc.2.map
    (fun sub => (lowerStr sub, ⟨rc.1, pc.1, sub⟩))))

/-- subcategory_map as a lookup: Python dict insertion with overwrite means
the last write wins, hence lookup in the reversed entry list. -/
def subcategory_map (t : Taxonomy) (k : Str) : Option HierarchyInfo :=
  List.lookup k (buildEntries t).reverse

/-- get_full_path from taxonomy_loader.py. -/
def get_full_path (t : Taxonomy) (sub : Str) : Option Str :=
  match subcategory_map t (lowerStr sub) with
  | none => none
  | some info =>
    some (info.root ++ (" > ".toList) ++ info.parent ++ (" > ".toList) ++ info.subcategory)

/-- get_hierarchy_info from taxonomy_loader.py. -/
def get_hierarchy_info (t : Taxonomy) (sub : Str) : Option HierarchyInfo :=
  subcategory_map t (lowerStr sub)

/-- all_subcategories: the set of lowercased subcategory names; modelled as
the deduplicated key list (iteration order of a Python set is arbitrary,
and every consumer either tests membership or sorts). -/
def all_subcategories (t : Taxonomy) : List Str :=
  ((buildEntries t).map Prod.fst).dedup

/-- is_valid_subcategory from taxonomy_loader.py. -/
def is_valid_subcategory (t : Taxonomy) (n : Str) : Bool :=
  (all_subcategories t).contains (lowerStr n)

/-- The taxonomy used by the spec example. -/
def fictionTaxonomy : Taxonomy :=
  [("Fiction".toList, [("Horror".toList, [("Gothic".toList)])])]

/-- C7: get_full_path answers with the stored original casing exactly when
the lowercased query is a key of subcategory_map, and with an absent result
(never an exception) otherwise; on the example taxonomy, "gothic" resolves
to "Fiction > Horror > Gothic" and "unknown" is absent. -/
theorem get_full_path_spec :
    (∀ (t : Taxonomy) (q : Str) (i : HierarchyInfo),
      subcategory_map t (lowerStr q) = some i →
        get_full_path t q =
          some (i.root ++ (" > ".toList) ++ i.parent ++ (" > ".toList) ++ i.subcategory)) ∧
    (∀ (t : Taxonomy) (q : Str),
      subcategory_map t (lowerStr q) = none → get_full_path t q = none) ∧
    get_full_path fictionTaxonomy ("gothic".toList) =
      some ("Fiction > Horror > Gothic".toList) ∧
    get_full_path fictionTaxonomy ("unknown".toList) = none := by
  refine ⟨?_, ?_, by decide, by decide⟩
  · intro t q i h
    unfold get_full_path
    rw [h]
  · intro t q h
    unfold get_full_path
    rw [h]

/-- Witness for C7: the theorem applied on the example taxonomy with the
concrete lookup hypothesis discharged by evaluation. -/
theorem get_full_path_spec_witness :
    subcategory_map fictionTaxonomy (lowerStr ("Gothic".toList)) =
      some ⟨"Fiction".toList, "Horror".toList, "Gothic".toList⟩ ∧
    get_full_path fictionTaxonomy ("Gothic".toList) =
      some (("Fiction".toList) ++ (" > ".toList) ++ ("Horror".toList) ++
        (" > ".toList) ++ ("Gothic".toList)) :=
  ⟨by decide,
   get_full_path_spec.1 fictionTaxonomy ("Gothic".toList)
     ⟨"Fiction".toList, "Horror".toList, "Gothic".toList⟩ (by decide)⟩

/-! ### MappingResult and its serialization (inference_engine.py) -/

/-- JSON-ish values appearing in the serialized result dictionary. -/
inductive JVal where
  | jnull : JVal
  | jbool : Bool → JVal
  | jint : Int → JVal
  | jstr : Str → JVal
  | jlist : List Str → JVal
  deriving DecidableEq

/-- An optional string serialized as string-or-null. -/
def optJ : Option Str → JVal
  | none => JVal.jnull
  | some s => JVal.jstr s

/-- MappingResult exactly as the class defines it: these eight attributes
and no others; in particular there is no confidence_score attribute. -/
structure MappingResult where
  case_id : Int
  user_tags : List Str
  snippet : Str
  mapped_category : Option Str
  full_path : Option Str
  reasoning : Str
  is_unmapped : Bool
  is_error : Bool
  deriving DecidableEq

/-- to_dict from inference_engine.py, as an ordered key-value list. -/
def to_dict (r : MappingResult) : List (String × JVal) :=
  [("id", JVal.jint r.case_id),
   ("user_tags", JVal.jlist r.user_tags),
   ("snippet", JVal.jstr r.snippet),
   ("mapped_category",
     if r.is_unmapped then JVal.jstr ("[UNMAPPED]".toList) else optJ r.mapped_category),
   ("full_path", if r.is_unmapped then JVal.jnull else optJ r.full_path),
   ("reasoning", JVal.jstr r.reasoning),
   ("is_unmapped", JVal.jbool r.is_unmapped),
   ("is_error", JVal.jbool r.is_error)]

/-- C3 (refuting theorem): no MappingResult serializes a confidence_score
key, because the class stores no such attribute and to_dict emits none —
even though output_handler.py reads result.confidence_score and the spec
lists the key. -/
theorem to_dict_missing_confidence_score (r : MappingResult) :
    List.lookup "confidence_score" (to_dict r) = none := by
  simp [to_dict]

/-- C6: serialization of the unmapped flag.  When is_unmapped is set, the
dictionary maps mapped_category to the literal string UNMAPPED-in-brackets
and full_path to null, regardless of the stored fields; otherwise both
stored fields pass through unchanged (null for an absent option). -/
theorem to_dict_unmapped_spec (r : MappingResult) :
    (r.is_unmapped = true →
      List.lookup "mapped_category" (to_dict r) =
        some (JVal.jstr ("[UNMAPPED]".toList)) ∧
      List.lookup "full_path" (to_dict r) = some JVal.jnull) ∧
    (r.is_unmapped = false →
      List.lookup "mapped_category" (to_dict r) = some (optJ r.mapped_category) ∧
      List.lookup "full_path" (to_dict r) = some (optJ r.full_path)) := by
  have hmc : List.lookup "mapped_category" (to_dict r) =
      some (if r.is_unmapped then JVal.jstr ("[UNMAPPED]".toList)
        else optJ r.mapped_category) := rfl
  have hfp : List.lookup "full_path" (to_dict r) =
      some (if r.is_unmapped then JVal.jnull else optJ r.full_path) := rfl
  constructor <;> intro h <;> rw [hmc, hfp, h] <;> simp

/-- A result whose stored category and path are populated even though the
unmapped flag is set; serialization must ignore the stored values. -/
def sampleUnmappedResult : MappingResult :=
  { case_id := 7, user_tags := [("horror".toList)], snippet := "x".toList,
    mapped_category := some ("Gothic".toList),
    full_path := some ("Fiction > Horror > Gothic".toList),
    reasoning := "r".toList, is_unmapped := true, is_error := false }

/-- Witness for C6: the theorem applied to a concrete result with the flag
set and non-null stored fields. -/
theorem to_dict_unmapped_spec_witness :
    List.lookup "mapped_category" (to_dict sampleUnmappedResult) =
      some (JVal.jstr ("[UNMAPPED]".toList)) ∧
    List.lookup "full_path" (to_dict sampleUnmappedResult) = some JVal.jnull :=
  (to_dict_unmapped_spec sampleUnmappedResult).1 rfl

/-! ### Summary counting (output_handler.py) -/

/-- total_cases of _build_summary. -/
def summary_total (rs : List MappingResult) : Nat := rs.length

/-- successfully_mapped of _build_summary. -/
def summary_mapped (rs : List MappingResult) : Nat :=
  rs.countP (fun r => !r.is_unmapped && !r.is_error)

/-- unmapped of _build_summary. -/
def summary_unmapped (rs : List MappingResult) : Nat :=
  rs.countP (fun r => r.is_unmapped)

/-- errors of _build_summary. -/
def summary_errors (rs : List MappingResult) : Nat :=
  rs.countP (fun r => r.is_error)

/-- A terminal error result as map_single produces one: both flags set. -/
def sampleErrorResult : MappingResult :=
  { case_id := 1, user_tags := [], snippet := "s".toList,
    mapped_category := none, full_path := none,
    reasoning := "Error during classification: boom".toList,
    is_unmapped := true, is_error := true }

/-- C5 counterexample: on a batch holding one error result (which, as
map_single builds them, carries is_unmapped and is_error together), the
three summary counts add up to 2 while total_cases is 1 — the error case is
counted under both unmapped and errors. -/
theorem summary_counts_counterexample :
    summary_mapped [sampleErrorResult] + summary_unmapped [sampleErrorResult] +
        summary_errors [sampleErrorResult] = 2 ∧
      summary_total [sampleErrorResult] = 1 := by
  constructor <;> rfl

/-- C5 amended: the three counts always add up to total_cases plus the
number of results carrying both flags; the states are not mutually
exclusive, since every error result is also counted as unmapped. -/
theorem summary_counts_identity (rs : List MappingResult) :
    summary_mapped rs + summary_unmapped rs + summary_errors rs =
      summary_total rs + rs.countP (fun r => r.is_unmapped && r.is_error) := by
  induction rs with
  | nil => rfl
  | cons r rest ih =>
    unfold summary_mapped summary_unmapped summary_errors summary_total at *
    rcases h1 : r.is_unmapped <;> rcases h2 : r.is_error <;>
      simp [List.countP_cons, h1, h2] <;> omega

/-! ### Valid-category list of the inference engine -/

/-- Python string comparison (code-point lexicographic), as a Bool order
for sorting. -/
def strLeB : Str → Str → Bool
  | [], _ => true
  | _ :: _, [] => false
  | a :: as, b :: bs =>
    if a.toNat < b.toNat then true
    else if b.toNat < a.toNat then false
    else strLeB as bs

/-- The category list before sorting: one "parent > subcategory" string per
known subcategory key. -/
def catListPre (t : Taxonomy) : List Str :=
  (all_subcategories t).filterMap (fun s =>
    (get_hierarchy_info t s).map (fun i => i.parent ++ (" > ".toList) ++ i.subcategory))

/-- _build_category_list from inference_engine.py: the sorted list of
"parent > subcategory" strings (a stable sort by Python string order,
modelled with insertion sort). -/
def build_category_list (t : Taxonomy) : List Str :=
  (catListPre t).insertionSort (fun a b => strLeB a b = true)

/-- Scan left to right, consuming non-overlapping " > " separators; the
accumulator holds the current component reversed, and the final component
is returned.  Models Python s.split(" > ")[-1]. -/
def lastCompAux : Str → Str → Str
  | acc, [] => acc.reverse
  | acc, [c] => (c :: acc).reverse
  | acc, [c, d] => (d :: c :: acc).reverse
  | acc, c :: d :: e :: r =>
    if c = ' ' ∧ d = '>' ∧ e = ' ' then lastCompAux [] r
    else lastCompAux (c :: acc) (d :: e :: r)

/-- The last " > "-separated component of a string. -/
def lastComp (l : Str) : Str := lastCompAux [] l

example : lastComp ("Horror > Gothic".toList) = ("Gothic".toList) := by decide

example : lastComp ("Gothic".toList) = ("Gothic".toList) := by decide

/-- Python str.strip of the two bracket characters. -/
def strip_brackets (s : Str) : Str :=
  ((s.dropWhile (fun c => c == '[' || c == ']')).reverse.dropWhile
    (fun c => c == '[' || c == ']')).reverse

/-- _validate_category from inference_engine.py: strip brackets and
whitespace; accept UNMAPPED case-insensitively; otherwise scan the sorted
valid-category list for a case-insensitive subcategory match and return the
canonical casing; fall back to the taxonomy lookup; reject otherwise. -/
def validate_category (t : Taxonomy) : Option Str → Option Str
  | none => none
  | some cat =>
    let cc := trimWs (strip_brackets cat)
    if upperStr cc = ("UNMAPPED".toList) then some ("UNMAPPED".toList)
    else
      match (build_category_list t).find?
          (fun vc => lowerStr (lastComp vc) == lowerStr cc) with
      | some vc => some (lastComp vc)
      | none =>
        if is_valid_subcategory t cc then
          match get_hierarchy_info t cc with
          | some i => some i.subcategory
          | none => none
        else none

/-! ### _parse_response, map_single and map_batch -/

/-- Everything after the first colon of a line, stripped. -/
def afterColon (line : Str) : Str :=
  trimWs ((line.dropWhile (fun c => !(c == ':'))).drop 1)

/-- _parse_response from inference_engine.py.  The loop keeps the last
Category:/Reasoning: assignment; when no Category line was seen, the result
of the regex scan for a known subcategory name or the UNMAPPED token
(passed in as an oracle, standing for re.search over the compiled
alternation) is used. -/
def parse_response (scan : Option Str) (resp : Str) : Option Str × Str :=
  let lines := (trimWs resp).splitOn '\n'
  let step := fun (acc : Option Str × Str) (rawLine : Str) =>
    let line := trimWs rawLine
    if ("category:".toList).isPrefixOf (lowerStr line) then
      (some (afterColon line), acc.2)
    else if ("reasoning:".toList).isPrefixOf (lowerStr line) then
      (acc.1, afterColon line)
    else acc
  let res := lines.foldl step (none, [])
  match res.1 with
  | some c => (some c, res.2)
  | none => (scan, res.2)

/-- Python str() of an optional string, as used in the f-string for an
unvalidated raw category. -/
def showOpt : Option Str → Str
  | none => "None".toList
  | some s => s

/-- One input case of the batch file. -/
structure CaseInput where
  id : Int
  user_tags : List Str
  snippet : Str

/-- map_single from inference_engine.py.  The llm oracle stands for
_build_prompt plus the chat-completion network call plus extracting
choices[0].message.content, the one genuinely fallible step; an
Except.error is what the try/except catches, and the handler builds the
terminal error result.  The scan oracle is the regex fallback of
_parse_response. -/
def map_single (llm : Int → List Str → Str → Except Str Str)
    (scan : Str → Option Str) (t : Taxonomy)
    (case_id : Int) (user_tags : List Str) (snippet : Str) : MappingResult :=
  match llm case_id user_tags snippet with
  | Except.error e =>
    { case_id := case_id, user_tags := user_tags, snippet := snippet,
      mapped_category := none, full_path := none,
      reasoning := ("Error during classification: ".toList) ++ e,
      is_unmapped := true, is_error := true }
  | Except.ok response_text =>
    let parsed := parse_response (scan response_text) response_text
    match validate_category t parsed.1 with
    | none =>
      { case_id := case_id, user_tags := user_tags, snippet := snippet,
        mapped_category := none, full_path := none,
        reasoning := ("LLM response could not be validated. Raw: ".toList) ++
          showOpt parsed.1,
        is_unmapped := true, is_error := true }
    | some c =>
      if c = ("UNMAPPED".toList) then
        { case_id := case_id, user_tags := user_tags, snippet := snippet,
          mapped_category := none, full_path := none,
          reasoning := if parsed.2 ≠ [] then parsed.2
            else "Content does not fit the fiction taxonomy.".toList,
          is_unmapped := true, is_error := false }
      else
        { case_id := case_id, user_tags := user_tags, snippet := snippet,
          mapped_category := some c, full_path := get_full_path t c,
          reasoning := if parsed.2 ≠ [] then parsed.2
            else "Classified based on story content.".toList,
          is_unmapped := false, is_error := false }

/-- map_batch from inference_engine.py: one map_single call per case, in
input order. -/
def map_batch (llm : Int → List Str → Str → Except Str Str)
    (scan : Str → Option Str) (t : Taxonomy)
    (cases : List CaseInput) : List MappingResult :=
  cases.map (fun c => map_single llm scan t c.id c.user_tags c.snippet)

theorem isPrefixOf_self (l : Str) : l.isPrefixOf l = true := by
  induction l with
  | nil => rfl
  | cons c t ih => simp [List.isPrefixOf, ih]

theorem containsSub_append (a b : Str) : containsSub (a ++ b) b = true := by
  unfold containsSub
  rw [List.any_eq_true]
  exact ⟨b, (List.mem_tails _ _).mpr ⟨a, rfl⟩, isPrefixOf_self b⟩

/-- C4: a fault in the fallible step of map_single (the completion call) is
caught and turned into a returned result with is_error and is_unmapped set
and the fault description inside the reasoning; and map_batch is exactly
one map_single result per input case in input order, so a faulted case
never aborts the batch or drops a case. -/
theorem map_single_catches_faults (llm : Int → List Str → Str → Except Str Str)
    (scan : Str → Option Str) (t : Taxonomy) :
    (∀ (cid : Int) (tags : List Str) (snip : Str) (e : Str),
      llm cid tags snip = Except.error e →
        (map_single llm scan t cid tags snip).is_error = true ∧
        (map_single llm scan t cid tags snip).is_unmapped = true ∧
        containsSub (map_single llm scan t cid tags snip).reasoning e = true) ∧
    (∀ cases : List CaseInput,
      (map_batch llm scan t cases).length = cases.length ∧
      (∀ i : Nat, (map_batch llm scan t cases)[i]? =
        (cases[i]?).map (fun c => map_single llm scan t c.id c.user_tags c.snippet))) := by
  constructor
  · intro cid tags snip e h
    unfold map_single
    rw [h]
    exact ⟨rfl, rfl, containsSub_append _ _⟩
  · intro cases
    constructor
    · simp [map_batch]
    · intro i
      simp [map_batch]

/-- A completion oracle that always fails, standing for a network fault. -/
def failingLlm : Int → List Str → Str → Except Str Str :=
  fun _ _ _ => Except.error ("boom".toList)

/-- The trivial regex-scan oracle. -/
def noScan : Str → Option Str := fun _ => none

/-- Witness for C4: the theorem applied to a concrete always-failing
oracle, one concrete case and the example taxonomy. -/
theorem map_single_catches_faults_witness :
    failingLlm 1 [] ("s".toList) = Except.error ("boom".toList) ∧
    ((map_single failingLlm noScan fictionTaxonomy 1 [] ("s".toList)).is_error = true ∧
     (map_single failingLlm noScan fictionTaxonomy 1 [] ("s".toList)).is_unmapped = true ∧
     containsSub (map_single failingLlm noScan fictionTaxonomy 1 [] ("s".toList)).reasoning
       ("boom".toList) = true) :=
  ⟨rfl,
   (map_single_catches_faults failingLlm noScan fictionTaxonomy).1
     1 [] ("s".toList) ("boom".toList) rfl⟩

/-! ### Characterizing _validate_category (C10) -/

theorem lowerStr_idem (s : Str) : lowerStr (lowerStr s) = lowerStr s := by
  unfold lowerStr
  rw [List.map_map]
  exact List.map_congr_left (fun c _ => toLower_toLower c)

/-- The original-casing subcategory names of a taxonomy. -/
def subNames (t : Taxonomy) : List Str :=
  (buildEntries t).map (fun e => e.2.subcategory)

/-- No parent or subcategory name contains the character of the hierarchy
separator (sane taxonomies; the separator " > " is an output convention). -/
def cleanTax (t : Taxonomy) : Prop :=
  ∀ e ∈ buildEntries t, '>' ∉ e.2.parent ∧ '>' ∉ e.2.subcategory

theorem entry_key_eq (t : Taxonomy) :
    ∀ e ∈ buildEntries t, e.1 = lowerStr e.2.subcategory := by
  intro e he
  unfold buildEntries at he
  rw [List.mem_flatMap] at he
  obtain ⟨rc, _, he⟩ := he
  rw [List.mem_flatMap] at he
  obtain ⟨pc, _, he⟩ := he
  rw [List.mem_map] at he
  obtain ⟨sub, _, rfl⟩ := he
  rfl

theorem mem_of_subcategory_map {t : Taxonomy} {k : Str} {i : HierarchyInfo}
    (h : subcategory_map t k = some i) : (k, i) ∈ buildEntries t := by
  unfold subcategory_map at h
  rw [List.lookup_eq_some_iff] at h
  obtain ⟨l₁, l₂, hsplit, -⟩ := h
  have hmem : (k, i) ∈ (buildEntries t).reverse := by
    rw [hsplit]
    simp
  rwa [List.mem_reverse] at hmem

theorem subcategory_map_key {t : Taxonomy} {k : Str} {i : HierarchyInfo}
    (h : subcategory_map t k = some i) :
    k = lowerStr i.subcategory ∧ i.subcategory ∈ subNames t := by
  have hm := mem_of_subcategory_map h
  refine ⟨entry_key_eq t _ hm, ?_⟩
  unfold subNames
  exact List.mem_map_of_mem _ hm

theorem subcategory_map_isSome_of_key {t : Taxonomy} {k : Str}
    (h : k ∈ (buildEntries t).map Prod.fst) :
    (subcategory_map t k).isSome = true := by
  unfold subcategory_map
  rw [List.lookup_isSome_iff]
  rw [List.mem_map] at h
  obtain ⟨e, he, hk⟩ := h
  exact ⟨e, List.mem_reverse.mpr he, by rw [hk]; exact beq_self_eq_true k⟩

theorem mem_all_subcategories_iff {t : Taxonomy} {k : Str} :
    k ∈ all_subcategories t ↔ k ∈ (buildEntries t).map Prod.fst := by
  unfold all_subcategories
  exact List.mem_dedup

/-! The last separated component of clean strings. -/

theorem lastCompAux_no_gt :
    ∀ (s acc : Str), '>' ∉ s → lastCompAux acc s = acc.reverse ++ s
  | [], acc, _ => by simp [lastCompAux]
  | [c], acc, _ => by simp [lastCompAux]
  | [c, d], acc, _ => by simp [lastCompAux]
  | c :: d :: e :: r, acc, h => by
    have hd : d ≠ '>' := by
      intro hdeq
      exact h (by rw [← hdeq] at *; simp)
    have htail : '>' ∉ d :: e :: r := by
      intro hmem
      exact h (List.mem_cons_of_mem _ hmem)
    show (if c = ' ' ∧ d = '>' ∧ e = ' ' then lastCompAux [] r
      else lastCompAux (c :: acc) (d :: e :: r)) = acc.reverse ++ c :: d :: e :: r
    rw [if_neg (by tauto)]
    rw [lastCompAux_no_gt (d :: e :: r) (c :: acc) htail]
    simp

theorem lastCompAux_sep :
    ∀ (p acc s : Str), '>' ∉ p → '>' ∉ s →
      lastCompAux acc (p ++ (" > ".toList) ++ s) = s
  | [], acc, s, _, hs => by
    show lastCompAux acc (' ' :: '>' :: ' ' :: s) = s
    show (if (' ' : Char) = ' ' ∧ ('>' : Char) = '>' ∧ (' ' : Char) = ' '
      then lastCompAux [] s else lastCompAux (' ' :: acc) ('>' :: ' ' :: s)) = s
    rw [if_pos ⟨rfl, rfl, rfl⟩, lastCompAux_no_gt s [] hs]
    rfl
  | c :: p', acc, s, hp, hs => by
    have hp' : '>' ∉ p' := fun hmem => hp (List.mem_cons_of_mem _ hmem)
    cases p' with
    | nil =>
      show lastCompAux acc (c :: ' ' :: '>' :: ' ' :: s) = s
      show (if c = ' ' ∧ (' ' : Char) = '>' ∧ ('>' : Char) = ' '
        then lastCompAux [] (' ' :: s)
        else lastCompAux (c :: acc) (' ' :: '>' :: ' ' :: s)) = s
      rw [if_neg (by simp)]
      exact lastCompAux_sep [] (c :: acc) s (by simp) hs
    | cons c2 p'' =>
      have hc2 : c2 ≠ '>' := by
        intro he
        exact hp' (by rw [he] at *; simp)
      cases p'' with
      | nil =>
        show lastCompAux acc (c :: c2 :: ' ' :: '>' :: ' ' :: s) = s
        show (if c = ' ' ∧ c2 = '>' ∧ (' ' : Char) = ' '
          then lastCompAux [] ('>' :: ' ' :: s)
          else lastCompAux (c :: acc) (c2 :: ' ' :: '>' :: ' ' :: s)) = s
        rw [if_neg (by tauto)]
        exact lastCompAux_sep [c2] (c :: acc) s
          (by intro hmem; rw [List.mem_singleton] at hmem; exact hc2 hmem.symm) hs
      | cons c3 p3 =>
        show lastCompAux acc
          (c :: c2 :: c3 :: (p3 ++ (" > ".toList) ++ s)) = s
        show (if c = ' ' ∧ c2 = '>' ∧ c3 = ' '
          then lastCompAux [] (p3 ++ (" > ".toList) ++ s)
          else lastCompAux (c :: acc) (c2 :: c3 :: (p3 ++ (" > ".toList) ++ s))) = s
        rw [if_neg (by tauto)]
        exact lastCompAux_sep (c2 :: c3 :: p3) (c :: acc) s
          (fun hmem => hp' (by simpa using hmem)) hs

theorem lastComp_sep {p s : Str} (hp : '>' ∉ p) (hs : '>' ∉ s) :
    lastComp (p ++ (" > ".toList) ++ s) = s :=
  lastCompAux_sep p [] s hp hs

theorem mem_catListPre {t : Taxonomy} {vc : Str} (h : vc ∈ catListPre t) :
    ∃ i : HierarchyInfo, (∃ k, subcategory_map t k = some i) ∧
      vc = i.parent ++ (" > ".toList) ++ i.subcategory := by
  unfold catListPre at h
  rw [List.mem_filterMap] at h
  obtain ⟨s, hs, hf⟩ := h
  rw [Option.map_eq_some'] at hf
  obtain ⟨i, hi, hvc⟩ := hf
  exact ⟨i, ⟨lowerStr s, hi⟩, hvc.symm⟩

theorem exists_vc_of_subname {t : Taxonomy} (hclean : cleanTax t) {s0 : Str}
    (h : s0 ∈ subNames t) :
    ∃ vc ∈ build_category_list t, lowerStr (lastComp vc) = lowerStr s0 := by
  unfold subNames at h
  rw [List.mem_map] at h
  obtain ⟨e, he, hs⟩ := h
  have hkey : e.1 = lowerStr s0 := by rw [entry_key_eq t e he, hs]
  have hkeys : lowerStr s0 ∈ (buildEntries t).map Prod.fst := by
    rw [← hkey]
    exact List.mem_map_of_mem _ he
  have hall : lowerStr s0 ∈ all_subcategories t := mem_all_subcategories_iff.mpr hkeys
  have hsome := subcategory_map_isSome_of_key hkeys
  obtain ⟨i, hi⟩ := Option.isSome_iff_exists.mp hsome
  have hpre : (i.parent ++ (" > ".toList) ++ i.subcategory) ∈ catListPre t := by
    unfold catListPre
    rw [List.mem_filterMap]
    refine ⟨lowerStr s0, hall, ?_⟩
    have hg : get_hierarchy_info t (lowerStr s0) = some i := by
      show subcategory_map t (lowerStr (lowerStr s0)) = some i
      rw [lowerStr_idem]
      exact hi
    rw [hg]
    rfl
  have hclean_i := hclean _ (mem_of_subcategory_map hi)
  have hlow : lowerStr i.subcategory = lowerStr s0 :=
    ((subcategory_map_key hi).1).symm
  refine ⟨i.parent ++ (" > ".toList) ++ i.subcategory,
    (List.mem_insertionSort _).mpr hpre, ?_⟩
  rw [lastComp_sep hclean_i.1 hclean_i.2, hlow]

theorem validate_category_some_eq (t : Taxonomy) (cat : Str) :
    validate_category t (some cat) =
      (if upperStr (trimWs (strip_brackets cat)) = ("UNMAPPED".toList)
       then some ("UNMAPPED".toList)
       else
        match (build_category_list t).find?
            (fun vc => lowerStr (lastComp vc) == lowerStr (trimWs (strip_brackets cat))) with
        | some vc => some (lastComp vc)
        | none =>
          if is_valid_subcategory t (trimWs (strip_brackets cat)) then
            match get_hierarchy_info t (trimWs (strip_brackets cat)) with
            | some i => some i.subcategory
            | none => none
          else none) := rfl

/-- C10: _validate_category first strips surrounding brackets, then
whitespace; it accepts UNMAPPED case-insensitively, resolves any input
whose stripped form case-insensitively equals a taxonomy subcategory to
that subcategory's canonical casing, and rejects everything else,
including an absent input.  Stated for taxonomies whose names avoid the
separator character. -/
theorem validate_category_spec (t : Taxonomy) (hclean : cleanTax t) :
    validate_category t none = none ∧
    ∀ cat : Str,
      (upperStr (trimWs (strip_brackets cat)) = ("UNMAPPED".toList) →
        validate_category t (some cat) = some ("UNMAPPED".toList)) ∧
      (upperStr (trimWs (strip_brackets cat)) ≠ ("UNMAPPED".toList) →
        ((∃ s ∈ subNames t,
            lowerStr s = lowerStr (trimWs (strip_brackets cat))) →
          ∃ s, validate_category t (some cat) = some s ∧ s ∈ subNames t ∧
            lowerStr s = lowerStr (trimWs (strip_brackets cat))) ∧
        ((∀ s ∈ subNames t,
            lowerStr s ≠ lowerStr (trimWs (strip_brackets cat))) →
          validate_category t (some cat) = none)) := by
  refine ⟨rfl, fun cat => ⟨?_, fun hne => ⟨?_, ?_⟩⟩⟩
  · intro h
    rw [validate_category_some_eq, if_pos h]
  · intro hex
    obtain ⟨s0, hs0, hlow⟩ := hex
    obtain ⟨vcw, hvcw, hlcw⟩ := exists_vc_of_subname hclean hs0
    have hfind : ((build_category_list t).find?
        (fun vc => lowerStr (lastComp vc) ==
          lowerStr (trimWs (strip_brackets cat)))).isSome := by
      rw [List.find?_isSome]
      refine ⟨vcw, hvcw, ?_⟩
      rw [hlcw, hlow]
      exact beq_self_eq_true _
    obtain ⟨vc₂, hvc₂⟩ := Option.isSome_iff_exists.mp hfind
    rw [validate_category_some_eq, if_neg hne, hvc₂]
    refine ⟨lastComp vc₂, rfl, ?_, ?_⟩
    · have hm := List.mem_of_find?_eq_some hvc₂
      have hm2 : vc₂ ∈ catListPre t := (List.mem_insertionSort _).mp hm
      obtain ⟨i, ⟨k, hik⟩, hvceq⟩ := mem_catListPre hm2
      have hci := hclean _ (mem_of_subcategory_map hik)
      have hl : lastComp vc₂ = i.subcategory := by
        rw [hvceq]
        exact lastComp_sep hci.1 hci.2
      rw [hl]
      exact (subcategory_map_key hik).2
    · exact eq_of_beq (@List.find?_some _
        (fun vc => lowerStr (lastComp vc) == lowerStr (trimWs (strip_brackets cat)))
        vc₂ (build_category_list t) hvc₂)
  · intro hall
    have hfnone : (build_category_list t).find?
        (fun vc => lowerStr (lastComp vc) ==
          lowerStr (trimWs (strip_brackets cat))) = none := by
      rw [List.find?_eq_none]
      intro vc hvc hpred
      have hm2 : vc ∈ catListPre t := (List.mem_insertionSort _).mp hvc
      obtain ⟨i, ⟨k, hik⟩, hvceq⟩ := mem_catListPre hm2
      have hci := hclean _ (mem_of_subcategory_map hik)
      have hl : lastComp vc = i.subcategory := by
        rw [hvceq]
        exact lastComp_sep hci.1 hci.2
      have heq : lowerStr i.subcategory = lowerStr (trimWs (strip_brackets cat)) := by
        rw [← hl]
        exact eq_of_beq hpred
      exact hall i.subcategory (subcategory_map_key hik).2 heq
    have hvalid : is_valid_subcategory t (trimWs (strip_brackets cat)) = false := by
      rcases hv : is_valid_subcategory t (trimWs (strip_brackets cat)) with _ | _
      · rfl
      · exfalso
        unfold is_valid_subcategory at hv
        have hmem := List.mem_of_elem_eq_true hv
        rw [mem_all_subcategories_iff, List.mem_map] at hmem
        obtain ⟨e, he, hk⟩ := hmem
        have h1 : lowerStr e.2.subcategory = lowerStr (trimWs (strip_brackets cat)) := by
          rw [← entry_key_eq t e he, hk]
        have h2 : e.2.subcategory ∈ subNames t := List.mem_map_of_mem _ he
        exact hall e.2.subcategory h2 h1
    rw [validate_category_some_eq, if_neg hne, hfnone]
    simp [hvalid]

/-- Witness for C10: the theorem applied on the example taxonomy to the
input "[gothic]", with the hypotheses discharged by evaluation; the
resolved canonical form is also evaluated to "Gothic" directly. -/
theorem validate_category_spec_witness :
    cleanTax fictionTaxonomy ∧
    (∃ s ∈ subNames fictionTaxonomy,
      lowerStr s = lowerStr (trimWs (strip_brackets ("[gothic]".toList)))) ∧
    (∃ s, validate_category fictionTaxonomy (some ("[gothic]".toList)) = some s ∧
      s ∈ subNames fictionTaxonomy ∧
      lowerStr s = lowerStr (trimWs (strip_brackets ("[gothic]".toList)))) ∧
    validate_category fictionTaxonomy (some ("[gothic]".toList)) =
      some ("Gothic".toList) :=
  ⟨by unfold cleanTax; decide, by decide,
   (((validate_category_spec fictionTaxonomy (by unfold cleanTax; decide)).2
       ("[gothic]".toList)).2 (by decide)).1 (by decide),
   by decide⟩

end TaxMap
